import Mathlib

/-!
Shallow embedding of the histogram edge / stair-step computation of
`src/silx/gui/plot/items/curve.py` (`_computeEdges`, `_getHistogramValue`).

Arrays are modelled as a dtype together with a list of rational values
(`NpArray`).  The two dtypes that matter for the specification are a
64-bit integer dtype and a 64-bit float dtype; the float dtype is
idealised as exact rational arithmetic, while the integer dtype casts by
truncation toward zero, which is what numpy does when float values are
stored into an integer array.  Failures (Python `AssertionError`,
numpy `IndexError` on indexing an empty array, numpy `ValueError` on a
non-broadcastable slice assignment) are modelled with `Except`.

A second, heap-passing rendition of the same two functions
(`_computeEdgesH`, `_getHistogramValueH`) makes allocation and in-place
slice assignment explicit: a heap is a list of arrays, an array reference
is an index into it, `numpy.append` / `.copy()` / `numpy.empty` allocate
fresh cells, and the strided slice assignments write in place.  It is used
to state that the two functions never write to their argument arrays and
hand back freshly allocated result buffers.
-/

inductive Dtype : Type where
  | int64 : Dtype
  | float64 : Dtype
deriving DecidableEq, Repr

/-- numpy dtype promotion restricted to the two dtypes of the model:
anything combined with a float is a float. -/
def Dtype.promote : Dtype → Dtype → Dtype
  | .float64, _ => .float64
  | _, .float64 => .float64
  | .int64, .int64 => .int64

/-- Storing a value into an array of a given dtype: a float array keeps the
value exactly (idealised), an integer array truncates toward zero (C cast,
as numpy does for float-to-int assignment). -/
def Dtype.cast : Dtype → ℚ → ℚ
  | .float64, q => q
  | .int64, q => ((if 0 ≤ q then ⌊q⌋ else ⌈q⌉ : ℤ) : ℚ)

/-- A numpy 1-d array: element type and contents. -/
structure NpArray where
  dtype : Dtype
  data : List ℚ
deriving DecidableEq, Repr

/-- The exceptions the two functions can raise. -/
inductive NpError : Type where
  | indexError : NpError
  | valueError : NpError
  | assertionError : NpError
deriving DecidableEq, Repr

/-- Body of the `histogramType` = `left` branch of `_computeEdges`:
`width = 1`; `if len(x) > 1: width = x[1] - x[0]`;
`edges = numpy.append(x[0] - width, edges)`.
Indexing `x[0]` on an empty array raises `IndexError`. -/
def leftEdges (x : NpArray) : Except NpError NpArray :=
  match x.data with
  | [] => .error .indexError
  | a :: t =>
    let width : ℚ := match t with | [] => 1 | b :: _ => b - a
    .ok ⟨x.dtype, (a - width) :: a :: t⟩

/-- Body of the `histogramType` = `right` branch of `_computeEdges`:
`width = 1`; `if len(x) > 1: width = x[-1] - x[-2]`;
`edges = numpy.append(edges, x[-1] + width)`.
Indexing `x[-1]` on an empty array raises `IndexError`. -/
def rightEdges (x : NpArray) : Except NpError NpArray :=
  match x.data with
  | [] => .error .indexError
  | a :: t =>
    let lastv := (a :: t).getLast (List.cons_ne_nil a t)
    let width : ℚ :=
      if t = [] then 1 else lastv - (a :: t).getD ((a :: t).length - 2) 0
    .ok ⟨x.dtype, (a :: t) ++ [lastv + width]⟩

/-- Tail of the `histogramType` = `center` branch of `_computeEdges`, after
the recursive call produced the right-aligned edges `r`:
`widths = (edges[1:] - edges[0:-1]) / 2.0`;
`widths = numpy.append(widths, widths[-1])`; `edges = edges - widths`.
Division by the float scalar `2.0` promotes the dtype to float. -/
def centerFromRight (r : NpArray) : NpArray :=
  let diffs := List.zipWith (fun u v => u - v) (r.data.drop 1) r.data.dropLast
  let halves := diffs.map (fun w => w / 2)
  let widths := halves ++ [halves.getLastD 0]
  ⟨r.dtype.promote .float64, List.zipWith (fun u v => u - v) r.data widths⟩

/-- Model of `_computeEdges(x, histogramType)` from `curve.py`.  The source starts
with `edges = x.copy()` and runs three (mutually exclusive) `if` branches;
the `center` branch recursively calls `_computeEdges(edges, right)`,
which resolves to the `right` branch, modelled here by `rightEdges` on the
same values.  When no branch matches, the unmodified copy is returned. -/
def _computeEdges (x : NpArray) (histogramType : String) : Except NpError NpArray :=
  if histogramType = "left" then leftEdges x
  else if histogramType = "center" then
    match rightEdges x with
    | .error e => .error e
    | .ok r => .ok (centerFromRight r)
  else if histogramType = "right" then rightEdges x
  else .ok ⟨x.dtype, x.data⟩

/-- The combined effect on a freshly allocated buffer of length `2*m` of the
two strided slice assignments `buf[:-1:2] = ev` and `buf[1::2] = od`, where
`ev` and `od` both have length `m`. -/
def interleave : List ℚ → List ℚ → List ℚ
  | a :: as, b :: bs => a :: b :: interleave as bs
  | _, _ => []

/-- numpy slice assignment of `src` into a strided slice of `m` cells of an
array of dtype `dt`: values are converted to `dt`; a length-1 `src`
broadcasts to all `m` cells; any other length mismatch raises
`ValueError`. -/
def assignSlice (m : Nat) (dt : Dtype) (src : List ℚ) : Except NpError (List ℚ) :=
  if src.length = m then .ok (src.map dt.cast)
  else match src with
    | [v] => .ok (List.replicate m (dt.cast v))
    | _ => .error .valueError

/-- Model of `_getHistogramValue(x, y, histogramType)` from `curve.py`:
assert the mode is legal; take `x` itself as the edges when
`len(x) == len(y) + 1`, else call `_computeEdges`; assert there are at
least two edges; allocate `resx` and `resy` of length
`2 * (len(edges) - 1)` with `dtype=edges.dtype` and fill them by the four
slice assignments `resx[:-1:2] = edges[:-1]`, `resx[1::2] = edges[1:]`,
`resy[:-1:2] = y`, `resy[1::2] = y`. -/
def _getHistogramValue (x y : NpArray) (histogramType : String) :
    Except NpError (NpArray × NpArray) :=
  if histogramType ∈ (["left", "right", "center"] : List String) then
    match (if x.data.length = y.data.length + 1 then Except.ok x
           else _computeEdges x histogramType : Except NpError NpArray) with
    | .error e => .error e
    | .ok edges =>
      if 1 < edges.data.length then
        match assignSlice (edges.data.length - 1) edges.dtype edges.data.dropLast,
              assignSlice (edges.data.length - 1) edges.dtype (edges.data.drop 1) with
        | .ok ex, .ok ox =>
          (match assignSlice (edges.data.length - 1) edges.dtype y.data,
                 assignSlice (edges.data.length - 1) edges.dtype y.data with
           | .ok ey, .ok oy =>
             .ok (⟨edges.dtype, interleave ex ox⟩, ⟨edges.dtype, interleave ey oy⟩)
           | .error e, _ => .error e
           | _, .error e => .error e)
        | .error e, _ => .error e
        | _, .error e => .error e
      else .error .assertionError
  else .error .assertionError

/-- A heap of numpy arrays; an array reference is an index into it. -/
abbrev Heap := List NpArray

/-- Dereference an array; a dangling reference reads as an empty array. -/
def Heap.read (h : Heap) (i : Nat) : NpArray := h.getD i ⟨.float64, []⟩

/-- In-place update of the array a reference points to (numpy slice
assignment mutates the target buffer). -/
def Heap.write (h : Heap) (i : Nat) (a : NpArray) : Heap := h.set i a

/-- Heap-passing rendition of `_computeEdges`: `edges = x.copy()` allocates
a copy at the end of the heap, and each `numpy.append` / arithmetic
expression allocates its (final) result; nothing is written to existing
cells.  The `center` branch performs the recursive call of the source
`_computeEdges(edges, right)` on the copy, which allocates the inner
own copy of that call and its appended result before the shifted edges are
allocated. -/
def _computeEdgesH (h : Heap) (ix : Nat) (histogramType : String) :
    Except NpError (Heap × Nat) :=
  let x := Heap.read h ix
  let h1 := h ++ [x]
  if histogramType = "left" then
    match leftEdges x with
    | .error err => .error err
    | .ok a => .ok (h1 ++ [a], h1.length)
  else if histogramType = "center" then
    let x2 := Heap.read h1 h.length
    let h2 := h1 ++ [x2]
    match rightEdges x2 with
    | .error err => .error err
    | .ok r =>
      let h3 := h2 ++ [r]
      .ok (h3 ++ [centerFromRight (Heap.read h3 h2.length)], h3.length)
  else if histogramType = "right" then
    match rightEdges x with
    | .error err => .error err
    | .ok a => .ok (h1 ++ [a], h1.length)
  else .ok (h1, h.length)

/-- Heap-passing rendition of `_getHistogramValue`: when
`len(x) == len(y) + 1` the edges reference aliases `x` (no copy is made);
otherwise `_computeEdges` allocates them.  `numpy.empty` allocates the two
result buffers `resx` and `resy`, and the four strided slice assignments
mutate those two buffers in place, reading `edges` and `y` from the heap. -/
def _getHistogramValueH (h : Heap) (ix iy : Nat) (histogramType : String) :
    Except NpError (Heap × Nat × Nat) :=
  if histogramType ∈ (["left", "right", "center"] : List String) then
    match (if (Heap.read h ix).data.length = (Heap.read h iy).data.length + 1
           then Except.ok (h, ix)
           else _computeEdgesH h ix histogramType : Except NpError (Heap × Nat)) with
    | .error err => .error err
    | .ok (h1, ie) =>
      if 1 < (Heap.read h1 ie).data.length then
        let dt := (Heap.read h1 ie).dtype
        let m := (Heap.read h1 ie).data.length - 1
        let irx := h1.length
        let h2 := h1 ++ [⟨dt, List.replicate (2 * m) 0⟩]
        let iry := h2.length
        let h3 := h2 ++ [⟨dt, List.replicate (2 * m) 0⟩]
        match assignSlice m dt (Heap.read h3 ie).data.dropLast,
              assignSlice m dt ((Heap.read h3 ie).data.drop 1) with
        | .ok ex, .ok ox =>
          let h4 := Heap.write h3 irx ⟨dt, interleave ex ox⟩
          (match assignSlice m dt (Heap.read h4 iy).data,
                 assignSlice m dt (Heap.read h4 iy).data with
           | .ok ey, .ok oy =>
             .ok (Heap.write h4 iry ⟨dt, interleave ey oy⟩, irx, iry)
           | .error err, _ => .error err
           | _, .error err => .error err)
        | .error err, _ => .error err
        | _, .error err => .error err
      else .error .assertionError
  else .error .assertionError

/-- The recursive call of the source `_computeEdges(edges, right)` in the
`center` branch is exactly the `right` branch. -/
theorem computeEdges_center_eq (x : NpArray) :
    _computeEdges x "center" =
      match _computeEdges x "right" with
      | .error e => .error e
      | .ok r => .ok (centerFromRight r) := rfl

lemma interleave_length (as bs : List ℚ) (h : as.length = bs.length) :
    (interleave as bs).length = 2 * as.length := by
  induction as generalizing bs with
  | nil =>
    cases bs with
    | nil => simp [interleave]
    | cons b bs => simp at h
  | cons a as ih =>
    cases bs with
    | nil => simp at h
    | cons b bs =>
      have := ih bs (by simpa using h)
      simp [interleave, this]
      ring

lemma interleave_getElem?_even (as bs : List ℚ) (h : as.length = bs.length)
    (i : Nat) (hi : i < as.length) : (interleave as bs)[2 * i]? = as[i]? := by
  induction as generalizing bs i with
  | nil => simp at hi
  | cons a as ih =>
    cases bs with
    | nil => simp at h
    | cons b bs =>
      cases i with
      | zero => simp [interleave]
      | succ j =>
        have harith : 2 * (j + 1) = 2 * j + 1 + 1 := by ring
        have := ih bs (by simpa using h) j (by simpa using hi)
        simp [interleave, harith, this]

lemma interleave_getElem?_odd (as bs : List ℚ) (h : as.length = bs.length)
    (i : Nat) (hi : i < as.length) : (interleave as bs)[2 * i + 1]? = bs[i]? := by
  induction as generalizing bs i with
  | nil => simp at hi
  | cons a as ih =>
    cases bs with
    | nil => simp at h
    | cons b bs =>
      cases i with
      | zero => simp [interleave]
      | succ j =>
        have harith : 2 * (j + 1) + 1 = 2 * j + 1 + 1 + 1 := by ring
        have := ih bs (by simpa using h) j (by simpa using hi)
        simp [interleave, harith, this]

lemma mem_interleave (as bs : List ℚ) (v : ℚ) (hv : v ∈ interleave as bs) :
    v ∈ as ∨ v ∈ bs := by
  induction as generalizing bs with
  | nil =>
    cases bs with
    | nil => simp [interleave] at hv
    | cons b bs => simp [interleave] at hv
  | cons a as ih =>
    cases bs with
    | nil => simp [interleave] at hv
    | cons b bs =>
      simp [interleave] at hv
      rcases hv with h1 | h1 | h1
      · exact Or.inl (by simp [h1])
      · exact Or.inr (by simp [h1])
      · rcases ih bs h1 with h2 | h2
        · exact Or.inl (by simp [h2])
        · exact Or.inr (by simp [h2])

lemma cast_idem (dt : Dtype) (q : ℚ) : dt.cast (dt.cast q) = dt.cast q := by
  cases dt with
  | float64 => rfl
  | int64 =>
    simp only [Dtype.cast]
    split
    · split
      · simp
      · simp
    · split
      · simp
      · simp

lemma leftEdges_ok (x e : NpArray) (h : leftEdges x = .ok e) :
    e.dtype = x.dtype ∧ e.data.length = x.data.length + 1 := by
  rcases hx : x.data with _ | ⟨a, t⟩ <;> simp only [leftEdges, hx] at h
  · simp at h
  · obtain rfl := (Except.ok.inj h).symm
    simp [hx]

lemma rightEdges_ok (x e : NpArray) (h : rightEdges x = .ok e) :
    e.dtype = x.dtype ∧ e.data.length = x.data.length + 1 := by
  rcases hx : x.data with _ | ⟨a, t⟩ <;> simp only [rightEdges, hx] at h
  · simp at h
  · obtain rfl := (Except.ok.inj h).symm
    simp [hx]

lemma centerFromRight_length (r : NpArray) :
    (centerFromRight r).data.length = r.data.length := by
  simp [centerFromRight, List.length_zipWith]
  omega

lemma computeEdges_ok_length (x e : NpArray) (ht : String)
    (hm : ht ∈ (["left", "right", "center"] : List String))
    (h : _computeEdges x ht = .ok e) :
    e.data.length = x.data.length + 1 := by
  simp only [List.mem_cons, List.not_mem_nil, or_false] at hm
  rcases hm with rfl | rfl | rfl
  · simp only [_computeEdges, if_pos rfl] at h
    exact (leftEdges_ok x e h).2
  · simp [_computeEdges] at h
    exact (rightEdges_ok x e h).2
  · simp [_computeEdges] at h
    split at h
    · simp at h
    · rename_i r heq
      obtain rfl := (Except.ok.inj h).symm
      rw [centerFromRight_length r]
      exact (rightEdges_ok x r heq).2

lemma computeEdges_empty (dt : Dtype) (ht : String)
    (hm : ht ∈ (["left", "right", "center"] : List String)) :
    _computeEdges ⟨dt, []⟩ ht = .error .indexError := by
  simp only [List.mem_cons, List.not_mem_nil, or_false] at hm
  rcases hm with rfl | rfl | rfl <;>
    simp [_computeEdges, leftEdges, rightEdges]

lemma assignSlice_of_length (m : Nat) (dt : Dtype) (src : List ℚ)
    (h : src.length = m) : assignSlice m dt src = .ok (src.map dt.cast) := by
  simp [assignSlice, h]

lemma assignSlice_ok_cases (m : Nat) (dt : Dtype) (src out : List ℚ)
    (h : assignSlice m dt src = .ok out) :
    (src.length = m ∧ out = src.map dt.cast) ∨
    (src.length ≠ m ∧ ∃ v, src = [v] ∧ out = List.replicate m (dt.cast v)) := by
  unfold assignSlice at h
  split at h
  · exact Or.inl ⟨by assumption, (Except.ok.inj h).symm⟩
  · rename_i hne
    split at h
    · rename_i v
      exact Or.inr ⟨hne, v, rfl, (Except.ok.inj h).symm⟩
    · simp at h

lemma getHistogramValue_ok_elim (x y rx ry : NpArray) (ht : String)
    (hres : _getHistogramValue x y ht = .ok (rx, ry)) :
    ∃ e ex ox ey,
      (if x.data.length = y.data.length + 1 then Except.ok x
       else _computeEdges x ht : Except NpError NpArray) = .ok e ∧
      1 < e.data.length ∧
      assignSlice (e.data.length - 1) e.dtype e.data.dropLast = .ok ex ∧
      assignSlice (e.data.length - 1) e.dtype (e.data.drop 1) = .ok ox ∧
      assignSlice (e.data.length - 1) e.dtype y.data = .ok ey ∧
      rx = ⟨e.dtype, interleave ex ox⟩ ∧ ry = ⟨e.dtype, interleave ey ey⟩ := by
  unfold _getHistogramValue at hres
  split at hres
  · split at hres
    · simp at hres
    · rename_i e heq
      split at hres
      · rename_i hlen
        split at hres
        · rename_i ex ox heqx heqox
          split at hres
          · rename_i ey oy heqy heqoy
            obtain heq2 := Except.ok.inj hres
            obtain rfl : ey = oy := Except.ok.inj (heqy.symm.trans heqoy)
            refine ⟨e, ex, ox, ey, heq, hlen, heqx, heqox, heqy, ?_, ?_⟩
            · exact (congrArg Prod.fst heq2).symm
            · exact (congrArg Prod.snd heq2).symm
          · simp at hres
          · simp at hres
        · simp at hres
        · simp at hres
      · simp at hres
  · simp at hres

/-- C2: whenever `len(x) == len(y) + 1`, `_getHistogramValue` takes `x`
itself as the edge sequence without calling `_computeEdges`, so the result
is the same for every legal mode; and for x=[0,1,2,3], y=[1,2,3] it
returns resx=[0,1,1,2,2,3], resy=[1,1,2,2,3,3]. -/
theorem C2_direct_edges_mode_independent :
    (∀ (x y : NpArray) (m1 m2 : String),
        m1 ∈ (["left", "right", "center"] : List String) →
        m2 ∈ (["left", "right", "center"] : List String) →
        x.data.length = y.data.length + 1 →
        _getHistogramValue x y m1 = _getHistogramValue x y m2) ∧
    _getHistogramValue ⟨.float64, [0, 1, 2, 3]⟩ ⟨.float64, [1, 2, 3]⟩ "left" =
      .ok (⟨.float64, [0, 1, 1, 2, 2, 3]⟩, ⟨.float64, [1, 1, 2, 2, 3, 3]⟩) := by
  constructor
  · intro x y m1 m2 h1 h2 hlen
    unfold _getHistogramValue
    rw [if_pos h1, if_pos h2, if_pos hlen, if_pos hlen]
  · norm_num [_getHistogramValue, assignSlice, interleave, Dtype.cast]

/-- C2 witness: concrete direct-edges input evaluated at two different
modes through the theorem. -/
theorem C2_witness :
    _getHistogramValue ⟨.float64, [0, 1]⟩ ⟨.float64, [5]⟩ "left" =
      _getHistogramValue ⟨.float64, [0, 1]⟩ ⟨.float64, [5]⟩ "center" :=
  C2_direct_edges_mode_independent.1 _ _ "left" "center" (by decide) (by decide)
    (by decide)

/-- C3 counterexample: for x=[0,1,2], y=[5,6], mode `right`, the code takes
the `len(x) == len(y) + 1` direct-edges branch and returns
resx=[0,1,1,2], not the claimed resx=[0,1,1,2,2,3]. -/
theorem C3_counterexample :
    _getHistogramValue ⟨.float64, [0, 1, 2]⟩ ⟨.float64, [5, 6]⟩ "right" =
      .ok (⟨.float64, [0, 1, 1, 2]⟩, ⟨.float64, [5, 5, 6, 6]⟩) ∧
    (⟨.float64, [0, 1, 1, 2]⟩ : NpArray) ≠ ⟨.float64, [0, 1, 1, 2, 2, 3]⟩ := by
  constructor
  · norm_num [_getHistogramValue, assignSlice, interleave, Dtype.cast]
  · intro hcontra
    have := congrArg (fun a : NpArray => a.data.length) hcontra
    simp at this

/-- C3 amended: for x=[0,1,2], y=[5,6], mode `right`, since
`len(x) == len(y) + 1` the code uses x directly as the edges and returns
resx=[0,1,1,2], resy=[5,5,6,6]. -/
theorem C3_amended_direct_path :
    _getHistogramValue ⟨.float64, [0, 1, 2]⟩ ⟨.float64, [5, 6]⟩ "right" =
      .ok (⟨.float64, [0, 1, 1, 2]⟩, ⟨.float64, [5, 5, 6, 6]⟩) := by
  norm_num [_getHistogramValue, assignSlice, interleave, Dtype.cast]

/-- C7: any mode outside left/right/center/none fails the leading assert:
the call reports an assertion error and returns no output. -/
theorem C7_invalid_mode_errors (x y : NpArray) (ht : String)
    (hm : ht ∉ (["left", "right", "center", "none"] : List String)) :
    _getHistogramValue x y ht = .error .assertionError := by
  have h3 : ht ∉ (["left", "right", "center"] : List String) := by
    intro hc
    apply hm
    simp only [List.mem_cons] at hc ⊢
    tauto
  unfold _getHistogramValue
  rw [if_neg h3]

/-- C7 witness: mode `top` on a concrete input. -/
theorem C7_witness :
    _getHistogramValue ⟨.float64, [0, 1]⟩ ⟨.float64, [5, 6]⟩ "top" =
      .error .assertionError :=
  C7_invalid_mode_errors _ _ "top" (by decide)

/-- C4: for nonempty x, left mode prepends the single element
`x[0] - width`, with `width = x[1] - x[0]` when `len(x) > 1` and `1`
otherwise; the result is one element longer than x. -/
theorem C4_left_mode (x : NpArray) (a w : ℚ)
    (ha : x.data[0]? = some a)
    (hw : (x.data.length = 1 ∧ w = 1) ∨
          (1 < x.data.length ∧ ∃ b, x.data[1]? = some b ∧ w = b - a)) :
    _computeEdges x "left" = .ok ⟨x.dtype, (a - w) :: x.data⟩ ∧
    ((a - w) :: x.data).length = x.data.length + 1 := by
  rcases hx : x.data with _ | ⟨a0, t⟩
  · rw [hx] at ha; simp at ha
  · rw [hx] at ha
    have haa : a0 = a := by simpa using ha
    subst haa
    refine ⟨?_, by simp⟩
    rcases t with _ | ⟨b0, t'⟩
    · rcases hw with ⟨_, rfl⟩ | ⟨hl, _⟩
      · simp [_computeEdges, leftEdges, hx]
      · rw [hx] at hl; simp at hl
    · rcases hw with ⟨hl, _⟩ | ⟨_, b, hb, rfl⟩
      · rw [hx] at hl; simp at hl
      · rw [hx] at hb
        have hbb : b0 = b := by simpa using hb
        subst hbb
        simp [_computeEdges, leftEdges, hx]

/-- C4 witness: x=[0,1,2] under left mode. -/
theorem C4_witness :
    _computeEdges ⟨.float64, [0, 1, 2]⟩ "left" =
      .ok ⟨.float64, (0 - (1 - 0)) :: [0, 1, 2]⟩ ∧
    ((0 - (1 - 0)) :: [(0 : ℚ), 1, 2]).length = [(0 : ℚ), 1, 2].length + 1 :=
  C4_left_mode ⟨.float64, [0, 1, 2]⟩ 0 (1 - 0) rfl
    (Or.inr ⟨by decide, 1, rfl, rfl⟩)

/-- C5: for nonempty x, right mode appends the single element
`x[n-1] + width`, with `width = x[n-1] - x[n-2]` when `n > 1` and `1`
otherwise; the result is one element longer than x. -/
theorem C5_right_mode (x : NpArray) (L w : ℚ)
    (hL : x.data.getLast? = some L)
    (hw : (x.data.length = 1 ∧ w = 1) ∨
          (1 < x.data.length ∧
            ∃ p, x.data[x.data.length - 2]? = some p ∧ w = L - p)) :
    _computeEdges x "right" = .ok ⟨x.dtype, x.data ++ [L + w]⟩ ∧
    (x.data ++ [L + w]).length = x.data.length + 1 := by
  rcases hx : x.data with _ | ⟨a0, t⟩
  · rw [hx] at hL; simp at hL
  · refine ⟨?_, by simp [hx]⟩
    have hcr : _computeEdges x "right" = rightEdges x := by
      simp [_computeEdges]
    rw [hcr]
    have hlast : (a0 :: t).getLast (List.cons_ne_nil a0 t) = L := by
      rw [hx, List.getLast?_eq_getLast (a0 :: t) (List.cons_ne_nil a0 t)] at hL
      exact Option.some.inj hL
    rcases t with _ | ⟨b0, t'⟩
    · rcases hw with ⟨_, rfl⟩ | ⟨hl, _⟩
      · simp only [rightEdges, hx]
        simp only [List.getLast_singleton] at hlast
        subst hlast
        simp [hx]
      · rw [hx] at hl; simp at hl
    · rcases hw with ⟨hl, _⟩ | ⟨_, p, hp, rfl⟩
      · rw [hx] at hl; simp at hl
      · rw [hx] at hp
        simp only [rightEdges, hx, hlast]
        rw [List.getD_eq_getElem?_getD]
        have hidx : (a0 :: b0 :: t').length - 2 = t'.length + 2 - 2 := by simp
        rw [hidx] at hp ⊢
        rw [hp]
        simp [hx]

/-- C5 witness: x=[0,1,2] under right mode. -/
theorem C5_witness :
    _computeEdges ⟨.float64, [0, 1, 2]⟩ "right" =
      .ok ⟨.float64, [0, 1, 2] ++ [2 + (2 - 1)]⟩ ∧
    ([(0 : ℚ), 1, 2] ++ [2 + (2 - 1)]).length = [(0 : ℚ), 1, 2].length + 1 :=
  C5_right_mode ⟨.float64, [0, 1, 2]⟩ 2 (2 - 1) rfl
    (Or.inr ⟨by decide, 1, rfl, rfl⟩)

lemma zipWith_sub_getElem? (as bs : List ℚ) (i : Nat) (a b : ℚ)
    (ha : as[i]? = some a) (hb : bs[i]? = some b) :
    (List.zipWith (fun u v => u - v) as bs)[i]? = some (a - b) := by
  rw [List.getElem?_zipWith, ha, hb]

/-- C6: center-mode edges are the right-mode edges `r` shifted down by the
half-gap to the successor, with the last half-gap duplicated for the final
edge (no symmetric extrapolation); the result is one element longer
than x. -/
theorem C6_center_mode (x r e : NpArray) (i : Nat) (ri rj rm rn : ℚ)
    (hr : _computeEdges x "right" = .ok r)
    (he : _computeEdges x "center" = .ok e)
    (hi : i + 1 < r.data.length)
    (h1 : r.data[i]? = some ri) (h2 : r.data[i + 1]? = some rj)
    (hm2 : r.data[r.data.length - 2]? = some rm)
    (hn : r.data[r.data.length - 1]? = some rn) :
    e.data.length = x.data.length + 1 ∧
    e.data[i]? = some (ri - (rj - ri) / 2) ∧
    e.data[r.data.length - 1]? = some (rn - (rn - rm) / 2) := by
  rw [computeEdges_center_eq, hr] at he
  obtain rfl : centerFromRight r = e := Except.ok.inj he
  have hrlen : r.data.length = x.data.length + 1 :=
    computeEdges_ok_length x r "right" (by decide) hr
  have hlen2 : 2 ≤ r.data.length := by omega
  have hdlen :
      (List.zipWith (fun u v => u - v) (r.data.drop 1) r.data.dropLast).length
        = r.data.length - 1 := by
    simp [List.length_zipWith]
  have hdget : ∀ (j : Nat) (u v : ℚ), j + 1 < r.data.length →
      r.data[j]? = some u → r.data[j + 1]? = some v →
      (List.zipWith (fun u v => u - v) (r.data.drop 1) r.data.dropLast)[j]?
        = some (v - u) := by
    intro j u v hj hu hv
    apply zipWith_sub_getElem?
    · rw [List.getElem?_drop]
      rwa [Nat.add_comm 1 j]
    · rw [List.dropLast_eq_take, List.getElem?_take, if_pos (by omega)]
      exact hu
  have hwidth : ∀ (j : Nat) (u v : ℚ), j + 1 < r.data.length →
      r.data[j]? = some u → r.data[j + 1]? = some v →
      ((List.zipWith (fun u v => u - v) (r.data.drop 1) r.data.dropLast).map
          (fun w => w / 2) ++
        [((List.zipWith (fun u v => u - v) (r.data.drop 1) r.data.dropLast).map
            (fun w => w / 2)).getLastD 0])[j]?
        = some ((v - u) / 2) := by
    intro j u v hj hu hv
    rw [List.getElem?_append, if_pos (by simp [hdlen]; omega)]
    rw [List.getElem?_map, hdget j u v hj hu hv]
    rfl
  have hwlast :
      ((List.zipWith (fun u v => u - v) (r.data.drop 1) r.data.dropLast).map
          (fun w => w / 2) ++
        [((List.zipWith (fun u v => u - v) (r.data.drop 1) r.data.dropLast).map
            (fun w => w / 2)).getLastD 0])[r.data.length - 1]?
        = some ((rn - rm) / 2) := by
    rw [List.getElem?_append, if_neg (by simp only [List.length_map, hdlen]; omega)]
    have hsub : r.data.length - 1 -
        ((List.zipWith (fun u v => u - v) (r.data.drop 1) r.data.dropLast).map
          (fun w => w / 2)).length = 0 := by
      simp [hdlen]
    rw [hsub]
    have hgl :
        ((List.zipWith (fun u v => u - v) (r.data.drop 1) r.data.dropLast).map
          (fun w => w / 2)).getLastD 0 = (rn - rm) / 2 := by
      rw [List.getLastD_eq_getLast?, List.getLast?_eq_getElem?]
      have hlm :
          ((List.zipWith (fun u v => u - v) (r.data.drop 1) r.data.dropLast).map
            (fun w => w / 2)).length - 1 = r.data.length - 2 := by
        simp only [List.length_map, hdlen]
        omega
      rw [hlm, List.getElem?_map]
      have hd2 :
          (List.zipWith (fun u v => u - v) (r.data.drop 1) r.data.dropLast)[r.data.length - 2]?
            = some (rn - rm) := by
        have harith : r.data.length - 2 + 1 = r.data.length - 1 := by omega
        apply zipWith_sub_getElem?
        · rw [List.getElem?_drop]
          have : 1 + (r.data.length - 2) = r.data.length - 1 := by omega
          rw [this]
          exact hn
        · rw [List.dropLast_eq_take, List.getElem?_take, if_pos (by omega)]
          exact hm2
      rw [hd2]
      rfl
    rw [hgl]
    rfl
  refine ⟨by rw [centerFromRight_length, hrlen], ?_, ?_⟩
  · show (centerFromRight r).data[i]? = _
    simp only [centerFromRight]
    exact zipWith_sub_getElem? _ _ i ri ((rj - ri) / 2) h1 (hwidth i ri rj hi h1 h2)
  · show (centerFromRight r).data[r.data.length - 1]? = _
    simp only [centerFromRight]
    apply zipWith_sub_getElem? _ _ _ rn ((rn - rm) / 2) hn hwlast

/-- C6 witness: x=[0,1,2], right edges r=[0,1,2,3], center edges
e=[-1/2,1/2,3/2,5/2], checked at bin 0 and at the final edge. -/
theorem C6_witness :
    (⟨.float64, [-1/2, 1/2, 3/2, 5/2]⟩ : NpArray).data.length =
      (⟨.float64, [0, 1, 2]⟩ : NpArray).data.length + 1 ∧
    (⟨.float64, [-1/2, 1/2, 3/2, 5/2]⟩ : NpArray).data[0]? =
      some (0 - (1 - 0) / 2) ∧
    (⟨.float64, [-1/2, 1/2, 3/2, 5/2]⟩ : NpArray).data[(⟨.float64, [0, 1, 2, 3]⟩ : NpArray).data.length - 1]? =
      some (3 - (3 - 2) / 2) :=
  C6_center_mode ⟨.float64, [0, 1, 2]⟩ ⟨.float64, [0, 1, 2, 3]⟩
    ⟨.float64, [-1/2, 1/2, 3/2, 5/2]⟩ 0 0 1 2 3
    (by simp [_computeEdges, rightEdges]
        norm_num)
    (by simp [_computeEdges, rightEdges, centerFromRight, Dtype.promote]
        norm_num)
    (by decide) rfl rfl rfl rfl

/-- C1 counterexample: on a valid input whose edges array has an integer
dtype and whose y values are fractional, resy holds the values truncated
to the edges dtype, not y[i] itself: here y[0] = 3/2 but resy[0] = 1. -/
theorem C1_counterexample :
    _getHistogramValue ⟨.int64, [0, 1, 2, 3]⟩ ⟨.float64, [3/2, 5/2, 7/2]⟩ "left" =
      .ok (⟨.int64, [0, 1, 1, 2, 2, 3]⟩, ⟨.int64, [1, 1, 2, 2, 3, 3]⟩) ∧
    (⟨.int64, [1, 1, 2, 2, 3, 3]⟩ : NpArray).data[0]? ≠ some ((3 : ℚ) / 2) := by
  constructor
  · norm_num [_getHistogramValue, assignSlice, interleave, Dtype.cast]
  · intro hcontra
    simp at hcontra
    norm_num at hcontra

/-- C1 amended: for every valid input (legal mode, edges of length at least
2, y one element shorter than the edges), resx and resy both have length
`2*(len(edges)-1)`; resx holds `edges[i]` at position 2i and `edges[i+1]`
at position 2i+1, and resy holds `y[i]` at both positions — each value
converted to the edges element type (the identity conversion whenever that
dtype imposes none, e.g. float edges). -/
theorem C1_amended_stairstep (x y e rx ry : NpArray) (ht : String) (i : Nat)
    (ei ej yi : ℚ)
    (hE : (if x.data.length = y.data.length + 1 then Except.ok x
           else _computeEdges x ht : Except NpError NpArray) = .ok e)
    (hy : y.data.length + 1 = e.data.length)
    (hres : _getHistogramValue x y ht = .ok (rx, ry))
    (hi : i < e.data.length - 1)
    (hei : e.data[i]? = some ei) (hej : e.data[i + 1]? = some ej)
    (hyi : y.data[i]? = some yi) :
    rx.data.length = 2 * (e.data.length - 1) ∧
    ry.data.length = 2 * (e.data.length - 1) ∧
    rx.data[2 * i]? = some (e.dtype.cast ei) ∧
    rx.data[2 * i + 1]? = some (e.dtype.cast ej) ∧
    ry.data[2 * i]? = some (e.dtype.cast yi) ∧
    ry.data[2 * i + 1]? = some (e.dtype.cast yi) := by
  obtain ⟨e', ex, ox, ey, hE', hlen, hax, hao, hay, hrx, hry⟩ :=
    getHistogramValue_ok_elim x y rx ry ht hres
  obtain rfl : e = e' := Except.ok.inj (hE.symm.trans hE')
  have hexv : ex = e.data.dropLast.map e.dtype.cast := by
    rcases assignSlice_ok_cases _ _ _ _ hax with ⟨_, hh⟩ | ⟨hcon, _⟩
    · exact hh
    · exact absurd (by simp) hcon
  have hoxv : ox = (e.data.drop 1).map e.dtype.cast := by
    rcases assignSlice_ok_cases _ _ _ _ hao with ⟨_, hh⟩ | ⟨hcon, _⟩
    · exact hh
    · exact absurd (by simp) hcon
  have heyv : ey = y.data.map e.dtype.cast := by
    rcases assignSlice_ok_cases _ _ _ _ hay with ⟨_, hh⟩ | ⟨hcon, _⟩
    · exact hh
    · exact absurd (by omega) hcon
  have hexlen : ex.length = e.data.length - 1 := by rw [hexv]; simp
  have hoxlen : ox.length = e.data.length - 1 := by rw [hoxv]; simp
  have heylen : ey.length = e.data.length - 1 := by rw [heyv]; simp; omega
  subst hrx hry
  refine ⟨?_, ?_, ?_, ?_, ?_, ?_⟩
  · show (interleave ex ox).length = _
    rw [interleave_length ex ox (hexlen.trans hoxlen.symm), hexlen]
  · show (interleave ey ey).length = _
    rw [interleave_length ey ey rfl, heylen]
  · show (interleave ex ox)[2 * i]? = _
    rw [interleave_getElem?_even ex ox (hexlen.trans hoxlen.symm) i (by omega)]
    rw [hexv, List.getElem?_map, List.dropLast_eq_take, List.getElem?_take,
      if_pos hi, hei]
    rfl
  · show (interleave ex ox)[2 * i + 1]? = _
    rw [interleave_getElem?_odd ex ox (hexlen.trans hoxlen.symm) i (by omega)]
    rw [hoxv, List.getElem?_map, List.getElem?_drop, Nat.add_comm 1 i, hej]
    rfl
  · show (interleave ey ey)[2 * i]? = _
    rw [interleave_getElem?_even ey ey rfl i (by omega)]
    rw [heyv, List.getElem?_map, hyi]
    rfl
  · show (interleave ey ey)[2 * i + 1]? = _
    rw [interleave_getElem?_odd ey ey rfl i (by omega)]
    rw [heyv, List.getElem?_map, hyi]
    rfl

/-- C1 witness: x=[0,1,2,3] supplied directly as edges, y=[1,2,3],
mode left, checked at bin 0. -/
theorem C1_witness :
    (⟨.float64, [0, 1, 1, 2, 2, 3]⟩ : NpArray).data.length =
      2 * ((⟨.float64, [0, 1, 2, 3]⟩ : NpArray).data.length - 1) ∧
    (⟨.float64, [1, 1, 2, 2, 3, 3]⟩ : NpArray).data.length =
      2 * ((⟨.float64, [0, 1, 2, 3]⟩ : NpArray).data.length - 1) ∧
    (⟨.float64, [0, 1, 1, 2, 2, 3]⟩ : NpArray).data[2 * 0]? = some (Dtype.float64.cast 0) ∧
    (⟨.float64, [0, 1, 1, 2, 2, 3]⟩ : NpArray).data[2 * 0 + 1]? = some (Dtype.float64.cast 1) ∧
    (⟨.float64, [1, 1, 2, 2, 3, 3]⟩ : NpArray).data[2 * 0]? = some (Dtype.float64.cast 1) ∧
    (⟨.float64, [1, 1, 2, 2, 3, 3]⟩ : NpArray).data[2 * 0 + 1]? = some (Dtype.float64.cast 1) :=
  C1_amended_stairstep ⟨.float64, [0, 1, 2, 3]⟩ ⟨.float64, [1, 2, 3]⟩
    ⟨.float64, [0, 1, 2, 3]⟩ ⟨.float64, [0, 1, 1, 2, 2, 3]⟩
    ⟨.float64, [1, 1, 2, 2, 3, 3]⟩ "left" 0 0 1 1
    (by simp)
    (by decide)
    (by norm_num [_getHistogramValue, assignSlice, interleave, Dtype.cast])
    (by decide) rfl rfl rfl

/-- C10: both result buffers are allocated with the dtype of the edges
array (x itself on the direct path), not of y; every value stored in resy
has been converted to that dtype (hence is a fixed point of the
conversion), and with integer-dtype x and fractional y the stored values
are the truncated ones. -/
theorem C10_result_dtype_follows_edges :
    (∀ (x y e rx ry : NpArray) (ht : String) (v : ℚ),
        (if x.data.length = y.data.length + 1 then Except.ok x
         else _computeEdges x ht : Except NpError NpArray) = .ok e →
        _getHistogramValue x y ht = .ok (rx, ry) →
        v ∈ ry.data →
        rx.dtype = e.dtype ∧ ry.dtype = e.dtype ∧ e.dtype.cast v = v) ∧
    _getHistogramValue ⟨.int64, [0, 1, 2, 3]⟩ ⟨.float64, [3/2, 5/2, 7/2]⟩ "right" =
      .ok (⟨.int64, [0, 1, 1, 2, 2, 3]⟩, ⟨.int64, [1, 1, 2, 2, 3, 3]⟩) := by
  constructor
  · intro x y e rx ry ht v hE hres hv
    obtain ⟨e', ex, ox, ey, hE', hlen, hax, hao, hay, hrx, hry⟩ :=
      getHistogramValue_ok_elim x y rx ry ht hres
    obtain rfl : e = e' := Except.ok.inj (hE.symm.trans hE')
    subst hrx hry
    refine ⟨rfl, rfl, ?_⟩
    have hmem : v ∈ ey := by
      rcases mem_interleave ey ey v hv with hh | hh <;> exact hh
    rcases assignSlice_ok_cases _ _ _ _ hay with ⟨_, rfl⟩ | ⟨_, w, _, rfl⟩
    · obtain ⟨u, _, rfl⟩ := List.mem_map.mp hmem
      exact cast_idem _ _
    · obtain rfl := List.eq_of_mem_replicate hmem
      exact cast_idem _ _
  · norm_num [_getHistogramValue, assignSlice, interleave, Dtype.cast]

/-- C10 witness: integer x supplied as edges, fractional float y; the
stored resy value 1 is a fixed point of the int64 conversion. -/
theorem C10_witness :
    (⟨.int64, [0, 1, 1, 2, 2, 3]⟩ : NpArray).dtype =
      (⟨.int64, [0, 1, 2, 3]⟩ : NpArray).dtype ∧
    (⟨.int64, [1, 1, 2, 2, 3, 3]⟩ : NpArray).dtype =
      (⟨.int64, [0, 1, 2, 3]⟩ : NpArray).dtype ∧
    (⟨.int64, [0, 1, 2, 3]⟩ : NpArray).dtype.cast 1 = 1 :=
  C10_result_dtype_follows_edges.1 ⟨.int64, [0, 1, 2, 3]⟩
    ⟨.float64, [3/2, 5/2, 7/2]⟩ ⟨.int64, [0, 1, 2, 3]⟩
    ⟨.int64, [0, 1, 1, 2, 2, 3]⟩ ⟨.int64, [1, 1, 2, 2, 3, 3]⟩ "left" 1
    (by simp)
    (by norm_num [_getHistogramValue, assignSlice, interleave, Dtype.cast])
    (by simp)

lemma leftEdges_exists_ok (x : NpArray) (hx : x.data ≠ []) :
    ∃ e, leftEdges x = .ok e := by
  cases hle : leftEdges x with
  | ok e => exact ⟨e, rfl⟩
  | error err =>
    rcases hx' : x.data with _ | ⟨a, t⟩
    · exact absurd hx' hx
    · simp [leftEdges, hx'] at hle

lemma rightEdges_exists_ok (x : NpArray) (hx : x.data ≠ []) :
    ∃ e, rightEdges x = .ok e := by
  cases hre : rightEdges x with
  | ok e => exact ⟨e, rfl⟩
  | error err =>
    rcases hx' : x.data with _ | ⟨a, t⟩
    · exact absurd hx' hx
    · simp [rightEdges, hx'] at hre

lemma computeEdges_ok_of_ne_nil (x : NpArray) (ht : String)
    (hm : ht ∈ (["left", "right", "center"] : List String))
    (hx : x.data ≠ []) :
    ∃ e, _computeEdges x ht = .ok e ∧ e.data.length = x.data.length + 1 := by
  simp only [List.mem_cons, List.not_mem_nil, or_false] at hm
  rcases hm with rfl | rfl | rfl
  · obtain ⟨e, he⟩ := leftEdges_exists_ok x hx
    exact ⟨e, by simp [_computeEdges, he], (leftEdges_ok x e he).2⟩
  · obtain ⟨e, he⟩ := rightEdges_exists_ok x hx
    exact ⟨e, by simp [_computeEdges, he], (rightEdges_ok x e he).2⟩
  · obtain ⟨r, hre⟩ := rightEdges_exists_ok x hx
    refine ⟨centerFromRight r, ?_, ?_⟩
    · rw [computeEdges_center_eq,
        show _computeEdges x "right" = rightEdges x from by simp [_computeEdges],
        hre]
    · rw [centerFromRight_length]
      exact (rightEdges_ok x r hre).2

lemma assignSlice_error (m : Nat) (dt : Dtype) (src : List ℚ)
    (h1 : src.length ≠ m) (h2 : src.length ≠ 1) :
    assignSlice m dt src = .error .valueError := by
  unfold assignSlice
  rw [if_neg h1]
  rcases src with _ | ⟨v, t⟩
  · rfl
  · rcases t with _ | ⟨w, t'⟩
    · exact absurd rfl h2
    · rfl

/-- C8 amended: degenerate inputs (empty x, hence unobtainable edges, or a
single direct edge) fail synchronously with an error and no geometry, and
so does every x/y length mismatch beyond the `len(x) == len(y) + 1`
exception — except a length-1 y, which numpy broadcasting silently spreads
over all bins instead of raising. -/
theorem C8_amended_degenerate_and_mismatch :
    (∀ (dt : Dtype) (y : NpArray) (ht : String),
        ht ∈ (["left", "right", "center"] : List String) →
        _getHistogramValue ⟨dt, []⟩ y ht = .error .indexError) ∧
    (∀ (x y : NpArray) (ht : String),
        ht ∈ (["left", "right", "center"] : List String) →
        x.data.length = 1 → y.data = [] →
        _getHistogramValue x y ht = .error .assertionError) ∧
    (∀ (x y : NpArray) (ht : String),
        ht ∈ (["left", "right", "center"] : List String) →
        x.data ≠ [] →
        x.data.length ≠ y.data.length + 1 →
        y.data.length ≠ x.data.length →
        y.data.length ≠ 1 →
        _getHistogramValue x y ht = .error .valueError) := by
  refine ⟨?_, ?_, ?_⟩
  · intro dt y ht hm
    have hnd : ¬ ((⟨dt, []⟩ : NpArray).data.length = y.data.length + 1) := by simp
    unfold _getHistogramValue
    rw [if_pos hm, if_neg hnd, computeEdges_empty dt ht hm]
  · intro x y ht hm hx1 hy0
    have hdir : x.data.length = y.data.length + 1 := by simp [hx1, hy0]
    have hnlt : ¬ 1 < x.data.length := by omega
    unfold _getHistogramValue
    rw [if_pos hm, if_pos hdir]
    exact if_neg hnlt
  · intro x y ht hm hx hne hyx hy1
    obtain ⟨e, hce, helen⟩ := computeEdges_ok_of_ne_nil x ht hm hx
    have hxlen : 0 < x.data.length := List.length_pos.mpr hx
    have h2e : 1 < e.data.length := by omega
    have hexlen : e.data.dropLast.length = e.data.length - 1 := by simp
    have hoxlen2 : (e.data.drop 1).length = e.data.length - 1 := by simp
    have hyerr : assignSlice (e.data.length - 1) e.dtype y.data =
        .error .valueError := assignSlice_error _ _ _ (by omega) hy1
    unfold _getHistogramValue
    rw [if_pos hm, if_neg hne, hce]
    simp only [if_pos h2e, assignSlice_of_length _ e.dtype _ hexlen,
      assignSlice_of_length _ e.dtype _ hoxlen2, hyerr]

/-- C8 counterexample: x=[0,1,2] with the mismatched length-1 y=[5] is not
the one-longer exception, yet the call succeeds, broadcasting y over all
three bins instead of signalling a usage error. -/
theorem C8_counterexample :
    _getHistogramValue ⟨.float64, [0, 1, 2]⟩ ⟨.float64, [5]⟩ "right" =
      .ok (⟨.float64, [0, 1, 1, 2, 2, 3]⟩, ⟨.float64, [5, 5, 5, 5, 5, 5]⟩) ∧
    (⟨.float64, [0, 1, 2]⟩ : NpArray).data.length ≠
      (⟨.float64, [5]⟩ : NpArray).data.length + 1 ∧
    (⟨.float64, [5]⟩ : NpArray).data.length ≠
      (⟨.float64, [0, 1, 2]⟩ : NpArray).data.length := by
  refine ⟨?_, by decide, by decide⟩
  simp [_getHistogramValue, _computeEdges, rightEdges, assignSlice,
    interleave, Dtype.cast]
  norm_num [interleave]

/-- C8 witness: a concrete mismatch (y longer than the bins) fails with a
ValueError through the theorem. -/
theorem C8_witness :
    _getHistogramValue ⟨.float64, [0, 1, 2]⟩ ⟨.float64, [1, 2, 3, 4, 5]⟩ "left" =
      .error .valueError :=
  C8_amended_degenerate_and_mismatch.2.2 ⟨.float64, [0, 1, 2]⟩
    ⟨.float64, [1, 2, 3, 4, 5]⟩ "left" (by decide) (by decide) (by decide)
    (by decide) (by decide)

lemma Heap.read_append (h t : Heap) (i : Nat) (hi : i < h.length) :
    Heap.read (h ++ t) i = Heap.read h i := by
  simp [Heap.read, List.getD_eq_getElem?_getD, List.getElem?_append, hi]

lemma Heap.read_write_ne (h : Heap) (j i : Nat) (a : NpArray) (hne : j ≠ i) :
    Heap.read (Heap.write h j a) i = Heap.read h i := by
  simp [Heap.read, Heap.write, List.getD_eq_getElem?_getD,
    List.getElem?_set_ne hne]

lemma computeEdgesH_frame (h : Heap) (ix : Nat) (ht : String) (h' : Heap)
    (ie : Nat) (hok : _computeEdgesH h ix ht = .ok (h', ie)) :
    h.length ≤ ie ∧ h.length ≤ h'.length ∧
    ∀ i, i < h.length → Heap.read h' i = Heap.read h i := by
  simp only [_computeEdgesH] at hok
  split at hok
  · split at hok
    · simp at hok
    · rename_i a heq
      injection hok with hok
      injection hok with hok1 hok2
      subst hok1
      subst hok2
      refine ⟨by simp, by simp, ?_⟩
      intro i hi
      rw [Heap.read_append _ _ i (by simp; omega), Heap.read_append _ _ i hi]
  · split at hok
    · split at hok
      · simp at hok
      · rename_i r heq
        injection hok with hok
        injection hok with hok1 hok2
        subst hok1
        subst hok2
        refine ⟨by simp, by simp, ?_⟩
        intro i hi
        rw [Heap.read_append _ _ i (by simp; omega),
          Heap.read_append _ _ i (by simp; omega),
          Heap.read_append _ _ i (by simp; omega),
          Heap.read_append _ _ i hi]
    · split at hok
      · split at hok
        · simp at hok
        · rename_i a heq
          injection hok with hok
          injection hok with hok1 hok2
          subst hok1
          subst hok2
          refine ⟨by simp, by simp, ?_⟩
          intro i hi
          rw [Heap.read_append _ _ i (by simp; omega),
            Heap.read_append _ _ i hi]
      · injection hok with hok
        injection hok with hok1 hok2
        subst hok1
        subst hok2
        exact ⟨le_refl _, by simp, fun i hi => Heap.read_append _ _ i hi⟩

lemma getHistogramValueH_frame (h : Heap) (ix iy : Nat) (ht : String)
    (h' : Heap) (irx iry : Nat)
    (hok : _getHistogramValueH h ix iy ht = .ok (h', irx, iry)) :
    h.length ≤ irx ∧ h.length ≤ iry ∧
    ∀ i, i < h.length → Heap.read h' i = Heap.read h i := by
  simp only [_getHistogramValueH] at hok
  split at hok
  · split at hok
    · simp at hok
    · rename_i p h1 ie heq
      have hbase : h.length ≤ h1.length ∧
          ∀ i, i < h.length → Heap.read h1 i = Heap.read h i := by
        split at heq
        · injection heq with heq
          injection heq with e1 e2
          subst e1
          exact ⟨le_refl _, fun i _ => rfl⟩
        · obtain ⟨_, hl, hr⟩ := computeEdgesH_frame h ix ht h1 ie heq
          exact ⟨hl, hr⟩
      split at hok
      · split at hok
        · rename_i ex ox heqx heqox
          split at hok
          · rename_i ey oy heqy heqoy
            injection hok with hok
            injection hok with hok1 hok2
            injection hok2 with hok2a hok2b
            subst hok1
            subst hok2a
            subst hok2b
            obtain ⟨hb1, hb2⟩ := hbase
            refine ⟨hb1, by simp; omega, ?_⟩
            intro i hi
            rw [Heap.read_write_ne _ _ i _ (by simp; omega),
              Heap.read_write_ne _ _ i _ (by omega),
              Heap.read_append _ _ i (by simp; omega),
              Heap.read_append _ _ i (by omega)]
            exact hb2 i hi
          · simp at hok
          · simp at hok
        · simp at hok
        · simp at hok
      · simp at hok
  · simp at hok

/-- C9: in the heap model, `_computeEdges` and `_getHistogramValue` leave
every argument array exactly as it was and return references to freshly
allocated buffers, distinct from the inputs. -/
theorem C9_no_mutation_fresh_outputs :
    (∀ (h : Heap) (ix : Nat) (ht : String) (h' : Heap) (ie : Nat),
        ix < h.length → _computeEdgesH h ix ht = .ok (h', ie) →
        Heap.read h' ix = Heap.read h ix ∧ ie ≠ ix) ∧
    (∀ (h : Heap) (ix iy : Nat) (ht : String) (h' : Heap) (irx iry : Nat),
        ix < h.length → iy < h.length →
        _getHistogramValueH h ix iy ht = .ok (h', irx, iry) →
        Heap.read h' ix = Heap.read h ix ∧ Heap.read h' iy = Heap.read h iy ∧
        irx ≠ ix ∧ irx ≠ iy ∧ iry ≠ ix ∧ iry ≠ iy) := by
  constructor
  · intro h ix ht h' ie hix hok
    obtain ⟨hie, _, hread⟩ := computeEdgesH_frame h ix ht h' ie hok
    exact ⟨hread ix hix, by omega⟩
  · intro h ix iy ht h' irx iry hix hiy hok
    obtain ⟨hirx, hiry, hread⟩ := getHistogramValueH_frame h ix iy ht h' irx iry hok
    exact ⟨hread ix hix, hread iy hiy, by omega, by omega, by omega, by omega⟩

/-- C9 witness: a two-array heap, the call returns references 2 and 3 to
the fresh result buffers and both inputs read back unchanged. -/
theorem C9_witness :
    Heap.read [⟨.float64, [0, 1]⟩, ⟨.float64, [5]⟩, ⟨.float64, [0, 1]⟩, ⟨.float64, [5, 5]⟩] 0 =
      Heap.read [⟨.float64, [0, 1]⟩, ⟨.float64, [5]⟩] 0 ∧
    Heap.read [⟨.float64, [0, 1]⟩, ⟨.float64, [5]⟩, ⟨.float64, [0, 1]⟩, ⟨.float64, [5, 5]⟩] 1 =
      Heap.read [⟨.float64, [0, 1]⟩, ⟨.float64, [5]⟩] 1 ∧
    (2 : Nat) ≠ 0 ∧ (2 : Nat) ≠ 1 ∧ (3 : Nat) ≠ 0 ∧ (3 : Nat) ≠ 1 :=
  C9_no_mutation_fresh_outputs.2 [⟨.float64, [0, 1]⟩, ⟨.float64, [5]⟩] 0 1 "right"
    [⟨.float64, [0, 1]⟩, ⟨.float64, [5]⟩, ⟨.float64, [0, 1]⟩, ⟨.float64, [5, 5]⟩] 2 3
    (by decide) (by decide)
    (by norm_num [_getHistogramValueH, Heap.read, Heap.write, assignSlice,
      interleave, Dtype.cast])
